import Mathlib

/-!
Verification development for the `caffeshop_scraping` repository.

The Python sources are shallowly embedded as executable Lean definitions:

* `extractors.py`  — email/social extraction over a modelled HTML tree
  (`HNode`); `BeautifulSoup`'s parsing of raw HTML text is not modelled,
  the extraction functions operate on the parsed tree, whose traversal
  primitives (`get_text`, `find_all`) are embedded faithfully.
* `pipeline.py`    — `build_business`, `enrich_with_socials`,
  `expand_email_records`, and the fixture branch of `run_demo_pipeline`.
* `web.py`         — `WebFetcher.fetch`, with HTTP responses supplied as an
  explicit attempt-indexed family and sleeps recorded as rational waits.
* `google_maps.py` — the status handling of `GoogleMapsClient._get`.

Python strings are modelled as Lean `String`/`List Char`; `str.strip`,
`str.lower` and the `re` email pattern are embedded for the ASCII range,
which is the range the repository's data exercises.  Timestamps
(`datetime.utcnow()`) are passed in as an abstract `Nat` parameter, and
seconds are rationals.
-/

namespace Caffeshop

/-! ### Python string primitives -/

/-- Whitespace set of Python `str.strip()` / `str.split()` (ASCII part). -/
def pyIsSpace (c : Char) : Bool :=
  c.toNat = 32 || c.toNat = 9 || c.toNat = 10 || c.toNat = 13 ||
  c.toNat = 11 || c.toNat = 12

/-- ASCII lower-casing, as `str.lower()` acts on the basic latin range. -/
def asciiLower (c : Char) : Char :=
  if 65 ≤ c.toNat ∧ c.toNat ≤ 90 then Char.ofNat (c.toNat + 32) else c

/-- Drop the trailing run of characters satisfying `p`. -/
def dropRightWhileL (p : Char → Bool) (l : List Char) : List Char :=
  (l.reverse.dropWhile p).reverse

/-- Strip characters satisfying `p` from both ends (Python `str.strip`). -/
def stripWhileL (p : Char → Bool) (l : List Char) : List Char :=
  dropRightWhileL p (l.dropWhile p)

/-- Python `str.strip()` on the character list of a string. -/
def pyStripL (l : List Char) : List Char := stripWhileL pyIsSpace l

/-- `normalize_email` from `extractors.py`: `email.strip().lower()`. -/
def normalize_email (s : String) : String :=
  ⟨(pyStripL s.data).map asciiLower⟩

/-- Does `pat` occur as a prefix of `l`? -/
def prefixOf : List Char → List Char → Bool
  | [], _ => true
  | _ :: _, [] => false
  | a :: as, b :: bs => a == b && prefixOf as bs

/-- Python's `pat in hay` substring test. -/
def substrL (pat : List Char) : List Char → Bool
  | [] => pat.isEmpty
  | c :: t => prefixOf pat (c :: t) || substrL pat t

/-- Python's `needle in hay` on strings. -/
def pySubstr (needle hay : String) : Bool := substrL needle.data hay.data

/-- Prefix of `hay` before the first occurrence of `pat`
(Python `hay.split(pat, 1)[0]`; the whole string when `pat` is absent). -/
def splitBeforeL (pat : List Char) : List Char → List Char
  | [] => []
  | c :: t => if prefixOf pat (c :: t) then [] else c :: splitBeforeL pat t

/-- Python `hay.split(pat, 1)[0]` on strings. -/
def splitBefore (hay pat : String) : String := ⟨splitBeforeL pat.data hay.data⟩

/-- Word counting helper: the flag records whether we are inside a word. -/
def wordCountAux : Bool → List Char → Nat
  | _, [] => 0
  | inWord, c :: t =>
    if pyIsSpace c then wordCountAux false t
    else (if inWord then 0 else 1) + wordCountAux true t

/-- Number of whitespace-separated words, i.e. `len(s.split())` in Python. -/
def wordCount (l : List Char) : Nat := wordCountAux false l

/-! ### The email regular expression

`EMAIL_REGEX = r"[A-Z0-9._%+-]+@[A-Z0-9.-]+\.[A-Z]{2,}"` with
`re.IGNORECASE`, scanned by `finditer` (leftmost, non-overlapping, greedy
quantifiers).  The greedy backtracking collapses to: maximal local-part run
followed by `@`, then within the maximal domain run the rightmost dot that
is followed by at least two letters and preceded by at least one domain
character. -/

def isAsciiLetter (c : Char) : Bool :=
  (65 ≤ c.toNat && c.toNat ≤ 90) || (97 ≤ c.toNat && c.toNat ≤ 122)

def isAsciiDigit (c : Char) : Bool := 48 ≤ c.toNat && c.toNat ≤ 57

/-- Character class `[A-Z0-9._%+-]` (case-insensitive). -/
def isLocalChar (c : Char) : Bool :=
  isAsciiLetter c || isAsciiDigit c || c == '.' || c == '_' || c == '%' ||
  c == '+' || c == '-'

/-- Character class `[A-Z0-9.-]` (case-insensitive). -/
def isDomainChar (c : Char) : Bool :=
  isAsciiLetter c || isAsciiDigit c || c == '.' || c == '-'

/-- Rightmost split of a domain run as `pre ++ '.' :: tld ++ leftover`
with `tld` a maximal run of at least two letters after the dot. -/
def findDomSplit : List Char → Option (List Char × List Char × List Char)
  | [] => none
  | c :: rest =>
    match findDomSplit rest with
    | some (pre, tld, left) => some (c :: pre, tld, left)
    | none =>
      if c = '.' then
        let t := rest.takeWhile isAsciiLetter
        if 2 ≤ t.length then some ([], t, rest.drop t.length) else none
      else none

/-- Try to match `EMAIL_REGEX` at the head of `s`; on success return the
matched text and the remaining input. -/
def matchEmailAt (s : List Char) : Option (List Char × List Char) :=
  let loc := s.takeWhile isLocalChar
  if loc.isEmpty then none
  else
    match s.drop loc.length with
    | '@' :: rest2 =>
      let dom := rest2.takeWhile isDomainChar
      (match findDomSplit dom with
       | some (pre, tld, left) =>
         if pre.isEmpty then none
         else some (loc ++ '@' :: (pre ++ '.' :: tld), left ++ rest2.drop dom.length)
       | none => none)
    | _ => none

/-- `EMAIL_REGEX.finditer`: scan left to right, non-overlapping matches.
`fuel` bounds the recursion and is instantiated with the input length. -/
def scanEmails : Nat → List Char → List (List Char)
  | 0, _ => []
  | _ + 1, [] => []
  | fuel + 1, c :: rest =>
    match matchEmailAt (c :: rest) with
    | some (m, r) => m :: scanEmails fuel r
    | none => scanEmails fuel rest

/-- All raw matches of `EMAIL_REGEX` in a string, in document order. -/
def pyFindAllEmails (s : String) : List String :=
  (scanEmails s.data.length s.data).map fun l => ⟨l⟩

/-- Does `EMAIL_REGEX.search` succeed on `s`?  (The `find_all(string=...)`
filter of BeautifulSoup.) -/
def nodeMatchesEmail (s : String) : Bool :=
  !(scanEmails s.data.length s.data).isEmpty

/-! ### Sorted deduplicated lists (Python `sorted(set(...))`) -/

/-- Insert into a strictly sorted list, keeping it strictly sorted and
duplicate-free. -/
def insertSorted (x : String) : List String → List String
  | [] => [x]
  | y :: ys =>
    if x = y then y :: ys
    else if x < y then x :: y :: ys
    else y :: insertSorted x ys

/-- Python `sorted(set(l))` for a list of strings. -/
def sortedSetOf (l : List String) : List String :=
  l.foldl (fun acc x => insertSorted x acc) []

/-- `extract_emails` from `extractors.py`:
`sorted({normalize_email(m) for m in EMAIL_REGEX.finditer(text)})`. -/
def extract_emails (text : String) : List String :=
  sortedSetOf ((pyFindAllEmails text).map normalize_email)

/-! ### The parsed HTML tree

`BeautifulSoup(html, "html.parser")` yields a tree of elements and text
nodes; the extractors only use `get_text(" ")`, `find_all("a", href=True)`
and `find_all(string=EMAIL_REGEX)` plus `text_node.parent`.  We embed the
parsed tree directly: an element carries its tag, an optional `href`
attribute (the only attribute ever read) and its children. -/

inductive HNode where
  | text : String → HNode
  | elem : String → Option String → List HNode → HNode

/-- All descendant strings of a list of nodes, in document order. -/
def nodeStringsList : List HNode → List String
  | [] => []
  | .text s :: rest => s :: nodeStringsList rest
  | .elem _ _ cs :: rest => nodeStringsList cs ++ nodeStringsList rest

/-- `get_text(" ")` of a whole document or of one element's children. -/
def getTextList (ns : List HNode) : String :=
  String.intercalate " " (nodeStringsList ns)

/-- All text nodes in document order, each paired with its parent's
`get_text(" ")`.  The top-level parent is the whole soup document, whose
`get_text(" ")` is passed in as `parentText`. -/
def textNodesUnder (parentText : String) : List HNode → List (String × String)
  | [] => []
  | .text s :: rest => (s, parentText) :: textNodesUnder parentText rest
  | .elem _ _ cs :: rest =>
    textNodesUnder (getTextList cs) cs ++ textNodesUnder parentText rest

/-- `find_all("a", href=True)`: `href` values of anchors, document order. -/
def anchorsIn : List HNode → List String
  | [] => []
  | .text _ :: rest => anchorsIn rest
  | .elem tag href cs :: rest =>
    (if tag = "a" then href.toList else []) ++ anchorsIn cs ++ anchorsIn rest

/-! ### `urllib.parse.urlparse` (netloc and path) -/

/-- Characters allowed in a URL scheme after the leading letter. -/
def isSchemeChar (c : Char) : Bool :=
  isAsciiLetter c || isAsciiDigit c || c == '+' || c == '-' || c == '.'

/-- Drop a leading `scheme:` when present (as `urlparse` does). -/
def dropScheme (l : List Char) : List Char :=
  let pre := l.takeWhile (· ≠ ':')
  if pre.length < l.length ∧ pre ≠ [] ∧
      (pre.headD ' ' |> isAsciiLetter) ∧ pre.all isSchemeChar then
    l.drop (pre.length + 1)
  else l

/-- `urlparse(href)`: the `(netloc, path)` pair.  A netloc is parsed only
after a leading `//`; it extends to the first `/`, `?` or `#`. -/
def urlNetlocPath (href : String) : String × String :=
  let l := dropScheme href.data
  if l.take 2 = ['/', '/'] then
    let rest := l.drop 2
    let netloc := rest.takeWhile fun c => c ≠ '/' ∧ c ≠ '?' ∧ c ≠ '#'
    let after := rest.drop netloc.length
    (⟨netloc⟩, ⟨after.takeWhile fun c => c ≠ '?' ∧ c ≠ '#'⟩)
  else
    ("", ⟨l.takeWhile fun c => c ≠ '?' ∧ c ≠ '#'⟩)

/-- Python `.lower()` of a string (ASCII model). -/
def pyLower (s : String) : String := ⟨s.data.map asciiLower⟩

/-- Python `path.strip("/")`. -/
def stripSlashes (s : String) : String := ⟨stripWhileL (· == '/') s.data⟩

/-! ### `extract_social_links` -/

/-- The four structured social fields of a `Business`. -/
inductive Platform where
  | facebook | instagram | twitter | yelp
deriving Repr, DecidableEq

/-- `SOCIAL_HOST_MAP` from `extractors.py`, in insertion order. -/
def SOCIAL_HOST_MAP : List (String × Platform) :=
  [("facebook.com", .facebook), ("fb.com", .facebook),
   ("instagram.com", .instagram), ("twitter.com", .twitter),
   ("x.com", .twitter), ("yelp.com", .yelp)]

/-- The `defaultdict(list)` of buckets, restricted to its possible keys. -/
structure SocialBuckets where
  facebook_url : List String
  instagram_handle : List String
  twitter_url : List String
  yelp_url : List String
deriving Repr, DecidableEq

def SocialBuckets.empty : SocialBuckets := ⟨[], [], [], []⟩

def SocialBuckets.get (bs : SocialBuckets) : Platform → List String
  | .facebook => bs.facebook_url
  | .instagram => bs.instagram_handle
  | .twitter => bs.twitter_url
  | .yelp => bs.yelp_url

def SocialBuckets.append (bs : SocialBuckets) : Platform → String → SocialBuckets
  | .facebook, v => { bs with facebook_url := bs.facebook_url ++ [v] }
  | .instagram, v => { bs with instagram_handle := bs.instagram_handle ++ [v] }
  | .twitter, v => { bs with twitter_url := bs.twitter_url ++ [v] }
  | .yelp, v => { bs with yelp_url := bs.yelp_url ++ [v] }

/-- One iteration of the `for host, field in SOCIAL_HOST_MAP.items()` loop
(no `break`: every matching entry appends). -/
def stepEntry (netloc path href : String) (bs : SocialBuckets)
    (e : String × Platform) : SocialBuckets :=
  if pySubstr e.1 netloc then
    if e.2 = .instagram then
      (if stripSlashes path = "" then bs else bs.append e.2 (stripSlashes path))
    else bs.append e.2 href
  else bs

/-- Processing of a single anchor: parse the href, lower-case the netloc,
run the host table. -/
def stepAnchor (bs : SocialBuckets) (href : String) : SocialBuckets :=
  let np := urlNetlocPath href
  SOCIAL_HOST_MAP.foldl (stepEntry (pyLower np.1) np.2 href) bs

/-- `extract_social_links` from `extractors.py`, over the anchors'
`href` values in document order. -/
def extract_social_links (hrefs : List String) : SocialBuckets :=
  hrefs.foldl stepAnchor SocialBuckets.empty

/-! ### `parse_contact_page` -/

/-- Result of parsing one page (`PageExtraction` dataclass).  The
`email_to_name` dict is an insertion-ordered association list with unique
keys. -/
structure PageExtraction where
  emails : List String
  email_to_name : List (String × Option String)
  social_links : SocialBuckets
deriving Repr, DecidableEq

/-- Python dict assignment `m[k] = v`: overwrite in place or append. -/
def dictSet (m : List (String × Option String)) (k : String)
    (v : Option String) : List (String × Option String) :=
  if m.any fun p => p.1 = k then
    m.map fun p => if p.1 = k then (k, v) else p
  else m ++ [(k, v)]

/-- Python `m.get(k)` for an `Optional[str]`-valued dict (missing keys and
`None` values coincide). -/
def dictGet (m : List (String × Option String)) (k : String) : Option String :=
  match m.lookup k with
  | some v => v
  | none => none

/-- The body of the owner-name inference loop in `parse_contact_page`,
acting on one text node (paired with its parent text). -/
def nameStep (m : List (String × Option String)) (tp : String × String) :
    List (String × Option String) :=
  if nodeMatchesEmail tp.1 then
    let email := normalize_email tp.1
    let before := splitBefore tp.2 tp.1
    let maybe_name : String := ⟨stripWhileL
      (fun c => c == ' ' || c == '-' || c == ':' || c == '\n' || c == '\t')
      before.data⟩
    if maybe_name ≠ "" ∧ 0 < wordCount maybe_name.data ∧
        wordCount maybe_name.data ≤ 4 then
      dictSet m email (some maybe_name)
    else m
  else m

/-- `parse_contact_page` from `extractors.py`, over the parsed tree. -/
def parse_contact_page (doc : List HNode) : PageExtraction :=
  let emails := extract_emails (getTextList doc)
  let social_links := extract_social_links (anchorsIn doc)
  let init : List (String × Option String) := emails.map fun e => (e, none)
  let email_to_name := (textNodesUnder (getTextList doc) doc).foldl nameStep init
  ⟨emails, email_to_name, social_links⟩

/-! ### Data model (`models.py`, `config.py`) -/

/-- `CityTarget` from `config.py`. -/
structure CityTarget where
  name : String
  country : String
  region : Option String := none
deriving Repr, DecidableEq

/-- `CityTarget.display_name` / `_format_location` (identical formats). -/
def CityTarget.display_name (c : CityTarget) : String :=
  match c.region with
  | some r => if r = "" then c.name ++ ", " ++ c.country
              else c.name ++ ", " ++ r ++ ", " ++ c.country
  | none => c.name ++ ", " ++ c.country

/-- Projection of a Google Places payload onto the fields `build_business`
reads.  `none` stands for an absent key or a non-string value (the code
checks `isinstance(value, str)` for the phone fields and truthiness for the
rest); `opening_hours.weekday_text` is flattened into one optional list.
The opaque `source_payload` retained for traceability is never read by the
verified logic and is not modelled. -/
structure Place where
  place_id : String
  name : Option String := none
  formatted_address : Option String := none
  international_phone_number : Option String := none
  formatted_phone_number : Option String := none
  weekday_text : Option (List String) := none
  website : Option String := none
  url : Option String := none
deriving Repr, DecidableEq

/-- `Business` dataclass from `models.py` (sans the opaque payload). -/
structure Business where
  place_id : String
  business_name : String
  location : String
  full_address : String
  phone : Option String
  additional_phones : List String := []
  google_maps_url : Option String := none
  website_url : Option String := none
  opening_hours : Option String := none
  google_knowledge_url : Option String := none
  social_medias_raw : List String := []
  facebook_url : Option String := none
  instagram_handle : Option String := none
  twitter_url : Option String := none
  yelp_url : Option String := none
deriving Repr, DecidableEq

/-- `EmailRecord` dataclass from `models.py`; `discovered_at` is an
abstract timestamp. -/
structure EmailRecord where
  business : Business
  email : String
  email_owner_name : Option String
  source_url : String
  scrape_notes : String
  discovered_at : Nat
deriving Repr, DecidableEq

/-! ### `pipeline.py`: build, enrich, expand -/

/-- Python `str(x or "") or None` applied to an optional string field. -/
def strOrNone : Option String → Option String
  | some s => if s = "" then none else some s
  | none => none

/-- `_extract_opening_hours`: join `weekday_text` with `" | "` when the
list is present and non-empty (an empty list is falsy). -/
def extract_opening_hours (place : Place) : Option String :=
  match place.weekday_text with
  | some l => if l = [] then none else some (String.intercalate " | " l)
  | none => none

/-- The phone-scanning loop of `build_business`: `primary_phone` is
overwritten while falsy (`None` or `""`), any later string value is
appended to `phones`. -/
def phoneScan (vals : List (Option String)) : Option String × List String :=
  vals.foldl
    (fun acc v =>
      match v with
      | none => acc
      | some s =>
        match acc.1 with
        | none => (some s, acc.2)
        | some p => if p = "" then (some s, acc.2) else (acc.1, acc.2 ++ [s]))
    (none, [])

/-- `build_business` from `pipeline.py`. -/
def build_business (place : Place) (city : CityTarget) : Business :=
  let scan := phoneScan
    [place.international_phone_number, place.formatted_phone_number]
  { place_id := place.place_id
    business_name := ⟨pyStripL (place.name.getD "").data⟩
    location := city.display_name
    full_address := ⟨pyStripL (place.formatted_address.getD "").data⟩
    phone := scan.1
    additional_phones := scan.2
    google_maps_url := strOrNone place.url
    website_url := strOrNone place.website
    opening_hours := extract_opening_hours place }

/-- `enrich_with_socials` from `pipeline.py`, as a pure update of the
mutated business.  Each platform field is overwritten with the first
bucket entry when the bucket is non-empty, otherwise kept. -/
def enrich_with_socials (b : Business) (ex : PageExtraction) : Business :=
  { b with
    social_medias_raw := sortedSetOf
      (ex.social_links.facebook_url ++ ex.social_links.instagram_handle ++
       ex.social_links.twitter_url ++ ex.social_links.yelp_url)
    facebook_url :=
      if ex.social_links.facebook_url = [] then b.facebook_url
      else ex.social_links.facebook_url.head?
    instagram_handle :=
      if ex.social_links.instagram_handle = [] then b.instagram_handle
      else ex.social_links.instagram_handle.head?
    twitter_url :=
      if ex.social_links.twitter_url = [] then b.twitter_url
      else ex.social_links.twitter_url.head?
    yelp_url :=
      if ex.social_links.yelp_url = [] then b.yelp_url
      else ex.social_links.yelp_url.head? }

/-- `expand_email_records` from `pipeline.py`. -/
def expand_email_records (business : Business) (extraction : PageExtraction)
    (source_url : String) (scrape_notes : String) (now : Nat) :
    List EmailRecord :=
  extraction.emails.map fun email =>
    { business := business
      email := email
      email_owner_name := dictGet extraction.email_to_name email
      source_url := source_url
      scrape_notes := scrape_notes
      discovered_at := now }

/-! ### `web.py`: `WebFetcher.fetch` -/

/-- `WebFetcher` configuration (dataclass defaults from `web.py`). -/
structure WebFetcher where
  timeout : Nat := 20
  retry_statuses : List Nat := [429, 503]
  max_retries : Nat := 3
  backoff_seconds : ℚ := 3
deriving Repr, DecidableEq

/-- An HTTP response, reduced to what `fetch` reads. -/
structure HttpResponse where
  status : Nat
  text : String
deriving Repr, DecidableEq

/-- Observable outcome of a `fetch` call: the returned value, the number
of requests issued, and the recorded `time.sleep` durations in order. -/
structure FetchOutcome where
  result : Option String
  attempts : Nat
  waits : List ℚ
deriving Repr, DecidableEq

/-- The `for attempt in range(1, max_retries + 1)` loop of `fetch`;
`resp` gives the response to the request of each attempt. -/
def fetchLoop (cfg : WebFetcher) (resp : Nat → HttpResponse) :
    List Nat → FetchOutcome
  | [] => ⟨none, 0, []⟩
  | attempt :: rest =>
    let r := resp attempt
    if r.status ∈ cfg.retry_statuses then
      let o := fetchLoop cfg resp rest
      ⟨o.result, o.attempts + 1, cfg.backoff_seconds * attempt :: o.waits⟩
    else if 400 ≤ r.status then ⟨none, 1, []⟩
    else ⟨some r.text, 1, []⟩

/-- `WebFetcher.fetch` from `web.py`. -/
def WebFetcher.fetch (cfg : WebFetcher) (resp : Nat → HttpResponse) :
    FetchOutcome :=
  fetchLoop cfg resp (List.range' 1 cfg.max_retries)

/-! ### `google_maps.py`: status handling of `GoogleMapsClient._get` -/

/-- The accepted top-level statuses in `_get`. -/
def ALLOWED_STATUSES : List String := ["OK", "ZERO_RESULTS", "OVER_QUERY_LIMIT"]

/-- What `_get` does after reading `payload["status"]`: raise, or sleep
for some duration and return the payload. -/
inductive GetOutcome where
  | fatal : String → GetOutcome
  | ok : ℚ → GetOutcome
deriving Repr, DecidableEq

/-- The status branch of `GoogleMapsClient._get`. -/
def mapsGet (request_delay_seconds : ℚ) (status : String) : GetOutcome :=
  if status ∉ ALLOWED_STATUSES then .fatal status
  else if status = "OVER_QUERY_LIMIT" then
    .ok (max (request_delay_seconds * 2) 2)
  else .ok request_delay_seconds

/-! ### `run_demo_pipeline` (fixture mode) -/

/-- One fixture entry.  `business = none` models a missing/empty business
mapping, `html = none` models a missing or non-string `html` value; the
`html` string is represented by its parsed tree. -/
structure FixtureEntry where
  business : Option Business := none
  html : Option (List HNode) := none
  source_url : Option String := none
  scrape_notes : Option String := none
  email_owner_overrides : List (String × String) := []

/-- Python `a or b` for an optional string against a string default. -/
def orElseStr (o : Option String) (dflt : String) : String :=
  match o with
  | some s => if s = "" then dflt else s
  | none => dflt

/-- The override loop of `run_demo_pipeline`: a truthy owner is written
over an existing normalized key. -/
def applyOverrides (m : List (String × Option String))
    (ovs : List (String × String)) : List (String × Option String) :=
  ovs.foldl
    (fun m p =>
      if p.2 ≠ "" ∧ (m.lookup (normalize_email p.1)).isSome then
        dictSet m (normalize_email p.1) (some p.2)
      else m)
    m

/-- Processing of one fixture entry inside `run_demo_pipeline`: `none`
when the entry is skipped (missing business data or HTML), otherwise the
produced email records. -/
def process_fixture_entry (entry : FixtureEntry) (now : Nat) :
    Option (List EmailRecord) :=
  match entry.business with
  | none => none
  | some business =>
    match entry.html with
    | none => none
    | some doc =>
      let extraction := parse_contact_page doc
      let business2 := enrich_with_socials business extraction
      let extraction2 := { extraction with
        email_to_name :=
          applyOverrides extraction.email_to_name entry.email_owner_overrides }
      let source_url :=
        orElseStr entry.source_url (orElseStr business2.website_url "demo")
      let notes := orElseStr entry.scrape_notes "demo_fixture"
      some (expand_email_records business2 extraction2 source_url notes now)

/-! ### Characterization helpers used by the theorems -/

/-- Concatenation of the images of a list under a list-valued function. -/
def catMap (f : α → List β) : List α → List β
  | [] => []
  | a :: t => f a ++ catMap f t

/-- Contribution of one `SOCIAL_HOST_MAP` entry to bucket `q` for an
anchor with the given lower-cased netloc, path and raw href. -/
def entryVal (q : Platform) (netloc path href : String)
    (e : String × Platform) : List String :=
  if pySubstr e.1 netloc ∧ e.2 = q then
    (if q = .instagram then
      (if stripSlashes path = "" then [] else [stripSlashes path])
     else [href])
  else []

/-- Total contribution of one anchor to bucket `q`: one item per matching
table entry, in table order. -/
def anchorContrib (q : Platform) (href : String) : List String :=
  catMap
    (entryVal q (pyLower (urlNetlocPath href).1) (urlNetlocPath href).2 href)
    SOCIAL_HOST_MAP

/-- The string values among the two phone fields, in scan order. -/
def phoneVals (place : Place) : List String :=
  [place.international_phone_number, place.formatted_phone_number].filterMap id

/-- Resulting primary phone: first non-empty string value; the empty
string when string values exist but all are empty; absent otherwise. -/
def phoneFirst (vs : List String) : Option String :=
  if vs = [] then none else some ((vs.dropWhile (· = "")).headD "")

/-- Resulting `additional_phones`: every string value strictly after the
first non-empty one, empty strings included, in encounter order. -/
def phoneRest (vs : List String) : List String :=
  (vs.dropWhile (· = "")).drop 1

/-! ### Concrete inputs used by counterexamples and witnesses -/

/-- A page whose email-bearing text node carries surrounding words. -/
def doc3 : List HNode :=
  [.elem "p" none [.elem "b" none [.text "Jane:"],
                   .text " jane@a.com is our contact"]]

/-- A page consisting of a single email text node. -/
def docW : List HNode := [.text "w@x.io"]

/-- A detail record with a non-empty international and an empty formatted
phone number. -/
def place4 : Place :=
  { place_id := "p4"
    international_phone_number := some "+1 555 0100"
    formatted_phone_number := some "" }

def city0 : CityTarget := { name := "Austin", country := "US" }

/-- A fixture business whose `website_url` is present but empty. -/
def biz0 : Business :=
  { place_id := "b1", business_name := "Demo Cafe", location := "Austin, US"
    full_address := "1 Main St", phone := none, website_url := some "" }

/-- A fixture entry with no `source_url` and no `scrape_notes`. -/
def entry10 : FixtureEntry :=
  { business := some biz0, html := some [.text "bob@x.com"] }

/-- A fixture business with an ordinary website URL. -/
def bizW : Business :=
  { place_id := "b2", business_name := "Other Cafe", location := "Austin, US"
    full_address := "2 Main St", phone := none
    website_url := some "https://cafe.example" }

/-- A fixture entry carrying explicit `source_url` and `scrape_notes`. -/
def entryW : FixtureEntry :=
  { business := some bizW, html := some [.text "a@b.co"]
    source_url := some "https://cafe.example/contact"
    scrape_notes := some "live" }


theorem toNat_ofNat_of_lt {n : Nat} (h : n < 55296) : (Char.ofNat n).toNat = n := by
  have hv : n.isValidChar := Or.inl h
  rw [Char.ofNat, dif_pos hv]
  rfl

theorem pyIsSpace_asciiLower (c : Char) :
    pyIsSpace (asciiLower c) = pyIsSpace c := by
  unfold asciiLower
  split
  · next h =>
    have ht : (Char.ofNat (c.toNat + 32)).toNat = c.toNat + 32 :=
      toNat_ofNat_of_lt (by omega)
    have h1 : pyIsSpace (Char.ofNat (c.toNat + 32)) = false := by
      simp only [pyIsSpace, ht]
      simp only [Bool.or_eq_false_iff, decide_eq_false_iff_not]
      omega
    have h2 : pyIsSpace c = false := by
      simp only [pyIsSpace]
      simp only [Bool.or_eq_false_iff, decide_eq_false_iff_not]
      omega
    rw [h1, h2]
  · rfl

theorem asciiLower_asciiLower (c : Char) :
    asciiLower (asciiLower c) = asciiLower c := by
  unfold asciiLower
  split
  · next h =>
    have ht : (Char.ofNat (c.toNat + 32)).toNat = c.toNat + 32 :=
      toNat_ofNat_of_lt (by omega)
    rw [ht, if_neg (by omega)]
  · rfl

theorem map_asciiLower_idem (l : List Char) :
    (l.map asciiLower).map asciiLower = l.map asciiLower := by
  rw [List.map_map]
  exact List.map_congr_left fun a _ => asciiLower_asciiLower a

theorem dropWhile_head_false {p : Char → Bool} :
    ∀ {l : List Char} {c : Char} {t : List Char},
      List.dropWhile p l = c :: t → p c = false := by
  intro l
  induction l with
  | nil => intro c t h; simp [List.dropWhile] at h
  | cons a l' ih =>
    intro c t h
    by_cases hp : p a
    · rw [List.dropWhile_cons_of_pos hp] at h
      exact ih h
    · rw [List.dropWhile_cons_of_neg hp] at h
      cases h
      simpa using hp

theorem dropWhile_stripWhileL (p : Char → Bool) (l : List Char) :
    List.dropWhile p (stripWhileL p l) = stripWhileL p l := by
  cases h : stripWhileL p l with
  | nil => simp
  | cons c rest =>
    have hsplit : stripWhileL p l ++
        ((List.dropWhile p l).reverse.takeWhile p).reverse =
        List.dropWhile p l := by
      unfold stripWhileL dropRightWhileL
      rw [← List.reverse_append, List.takeWhile_append_dropWhile,
        List.reverse_reverse]
    rw [h] at hsplit
    have hc : p c = false := dropWhile_head_false hsplit.symm
    rw [List.dropWhile_cons_of_neg (by simp [hc])]

theorem stripWhileL_idem (p : Char → Bool) (l : List Char) :
    stripWhileL p (stripWhileL p l) = stripWhileL p l := by
  conv_lhs => rw [stripWhileL, dropWhile_stripWhileL]
  show dropRightWhileL p (stripWhileL p l) = stripWhileL p l
  unfold stripWhileL dropRightWhileL
  rw [List.reverse_reverse, List.dropWhile_idempotent]

theorem stripWhileL_map (p : Char → Bool) (f : Char → Char)
    (hf : ∀ c, p (f c) = p c) (l : List Char) :
    stripWhileL p (l.map f) = (stripWhileL p l).map f := by
  have hpf : p ∘ f = p := funext hf
  unfold stripWhileL dropRightWhileL
  rw [List.dropWhile_map, hpf, ← List.map_reverse, List.dropWhile_map, hpf,
    ← List.map_reverse]

theorem normalize_email_idem (s : String) :
    normalize_email (normalize_email s) = normalize_email s := by
  show (⟨(pyStripL ((pyStripL s.data).map asciiLower)).map asciiLower⟩ : String)
      = normalize_email s
  unfold pyStripL
  rw [stripWhileL_map pyIsSpace asciiLower pyIsSpace_asciiLower,
    stripWhileL_idem, map_asciiLower_idem]
  rfl



theorem mem_insertSorted {x z : String} :
    ∀ {l : List String}, z ∈ insertSorted x l → z = x ∨ z ∈ l := by
  intro l
  induction l with
  | nil => intro h; simp [insertSorted] at h; exact Or.inl h
  | cons y ys ih =>
    intro h
    simp only [insertSorted] at h
    split at h
    · exact Or.inr h
    · split at h
      · rcases List.mem_cons.mp h with h | h
        · exact Or.inl h
        · exact Or.inr h
      · rcases List.mem_cons.mp h with h | h
        · exact Or.inr (h ▸ List.mem_cons_self y ys)
        · rcases ih h with h | h
          · exact Or.inl h
          · exact Or.inr (List.mem_cons_of_mem y h)

theorem pairwise_insertSorted {x : String} :
    ∀ {l : List String}, l.Pairwise (· < ·) →
      (insertSorted x l).Pairwise (· < ·) := by
  intro l
  induction l with
  | nil => intro _; simp [insertSorted]
  | cons y ys ih =>
    intro hp
    rcases List.pairwise_cons.mp hp with ⟨hy, hys⟩
    simp only [insertSorted]
    split
    · exact hp
    · split
      · next hne hlt =>
        refine List.pairwise_cons.mpr ⟨?_, hp⟩
        intro z hz
        rcases List.mem_cons.mp hz with rfl | hz
        · exact hlt
        · exact lt_trans hlt (hy z hz)
      · next hne hlt =>
        have hyx : y < x := by
          rcases lt_trichotomy x y with h | h | h
          · exact absurd h hlt
          · exact absurd h hne
          · exact h
        refine List.pairwise_cons.mpr ⟨?_, ih hys⟩
        intro z hz
        rcases mem_insertSorted hz with rfl | hz
        · exact hyx
        · exact hy z hz

theorem pairwise_foldl_insertSorted :
    ∀ (l acc : List String), acc.Pairwise (· < ·) →
      (l.foldl (fun a x => insertSorted x a) acc).Pairwise (· < ·) := by
  intro l
  induction l with
  | nil => intro acc h; exact h
  | cons x xs ih => intro acc h; exact ih _ (pairwise_insertSorted h)

theorem pairwise_sortedSetOf (l : List String) :
    (sortedSetOf l).Pairwise (· < ·) :=
  pairwise_foldl_insertSorted l [] (by simp)

theorem mem_foldl_insertSorted :
    ∀ (l acc : List String) (z : String),
      z ∈ l.foldl (fun a x => insertSorted x a) acc → z ∈ acc ∨ z ∈ l := by
  intro l
  induction l with
  | nil => intro acc z h; exact Or.inl h
  | cons x xs ih =>
    intro acc z h
    rcases ih _ z h with h | h
    · rcases mem_insertSorted h with rfl | h
      · exact Or.inr (List.mem_cons_self _ _)
      · exact Or.inl h
    · exact Or.inr (List.mem_cons_of_mem x h)

theorem mem_sortedSetOf {z : String} {l : List String}
    (h : z ∈ sortedSetOf l) : z ∈ l := by
  rcases mem_foldl_insertSorted l [] z h with h | h
  · simp at h
  · exact h

/-- C2: for every input text, the list returned by `extract_emails` (and
hence the `emails` field of `parse_contact_page`) is lexically strictly
sorted, duplicate-free and fixed by normalization (whitespace-trimmed and
lower-cased); in particular a page containing both `"A@X.com"` and
`"a@x.com"` yields the single email `"a@x.com"`. -/
theorem C2_extract_emails_normalized_sorted :
    (∀ text : String,
      (extract_emails text).Pairwise (· < ·) ∧
      (extract_emails text).Nodup ∧
      (extract_emails text).map normalize_email = extract_emails text) ∧
    (parse_contact_page [HNode.text "A@X.com and a@x.com"]).emails =
      ["a@x.com"] := by
  constructor
  · intro text
    have hp := pairwise_sortedSetOf ((pyFindAllEmails text).map normalize_email)
    refine ⟨hp, hp.imp ne_of_lt, ?_⟩
    have hfix : ∀ e ∈ extract_emails text, normalize_email e = e := by
      intro e he
      rcases List.mem_map.mp (mem_sortedSetOf he) with ⟨m, _, rfl⟩
      exact normalize_email_idem m
    exact (List.map_congr_left fun e he => hfix e he).trans (List.map_id _)
  · simp only [parse_contact_page, getTextList, nodeStringsList, anchorsIn]
    decide

/-- C1: `expand_email_records` produces exactly one `EmailRecord` per
extracted email, in order, and every record carries the same business
value. -/
theorem C1_expand_email_records_one_per_email :
    ∀ (b : Business) (ex : PageExtraction) (url notes : String) (t : Nat),
      (expand_email_records b ex url notes t).length = ex.emails.length ∧
      (expand_email_records b ex url notes t).map (fun r => r.email) =
        ex.emails ∧
      (expand_email_records b ex url notes t).map (fun r => r.business) =
        List.replicate ex.emails.length b := by
  intro b ex url notes t
  refine ⟨by simp [expand_email_records], ?_, ?_⟩
  · simp only [expand_email_records, List.map_map]
    exact (List.map_congr_left fun e _ => rfl).trans (List.map_id _)
  · simp only [expand_email_records, List.map_map]
    exact (List.map_congr_left fun e _ => rfl).trans (List.map_const' _ _)

/-- C6: `enrich_with_socials` is idempotent — a second run with the same
extraction leaves every field of the business unchanged. -/
theorem C6_enrich_with_socials_idempotent :
    ∀ (b : Business) (ex : PageExtraction),
      enrich_with_socials (enrich_with_socials b ex) ex =
        enrich_with_socials b ex := by
  intro b ex
  unfold enrich_with_socials
  by_cases h1 : ex.social_links.facebook_url = [] <;>
  by_cases h2 : ex.social_links.instagram_handle = [] <;>
  by_cases h3 : ex.social_links.twitter_url = [] <;>
  by_cases h4 : ex.social_links.yelp_url = [] <;>
    simp [h1, h2, h3, h4]



/-- C4 counterexample: with a non-empty international number and an empty
formatted number, `build_business` appends the empty string to
`additional_phones`, contradicting the claim that no empty string ever
becomes a member of `additional_phones`. -/
theorem C4_counterexample :
    (build_business place4 city0).additional_phones = [""] ∧
    (build_business place4 city0).phone = some "+1 555 0100" := by decide

/-- C4 amended: `build_business` scans international then formatted; the
first non-empty string value becomes `phone` (when string values exist but
all are empty, `phone` is the empty string, since an empty provisional
value is overwritten by any later string value), and every string value
encountered after `phone` is non-empty — empty strings included — is
appended to `additional_phones` in encounter order. -/
theorem C4_build_business_phone_scan :
    ∀ (place : Place) (city : CityTarget),
      (build_business place city).phone = phoneFirst (phoneVals place) ∧
      (build_business place city).additional_phones =
        phoneRest (phoneVals place) := by
  intro place city
  cases hi : place.international_phone_number with
  | none =>
    cases hf : place.formatted_phone_number with
    | none =>
      simp [build_business, phoneScan, phoneVals, phoneFirst, phoneRest, hi, hf]
    | some f =>
      by_cases hf0 : f = "" <;>
        simp [build_business, phoneScan, phoneVals, phoneFirst, phoneRest,
          hi, hf, hf0]
  | some i =>
    cases hf : place.formatted_phone_number with
    | none =>
      by_cases hi0 : i = "" <;>
        simp [build_business, phoneScan, phoneVals, phoneFirst, phoneRest,
          hi, hf, hi0]
    | some f =>
      by_cases hi0 : i = "" <;> by_cases hf0 : f = "" <;>
        simp [build_business, phoneScan, phoneVals, phoneFirst, phoneRest,
          hi, hf, hi0, hf0]

theorem get_append_bucket (bs : SocialBuckets) (p q : Platform) (v : String) :
    (bs.append p v).get q = bs.get q ++ (if p = q then [v] else []) := by
  cases p <;> cases q <;>
    simp [SocialBuckets.append, SocialBuckets.get]

theorem get_stepEntry (netloc path href : String) (bs : SocialBuckets)
    (e : String × Platform) (q : Platform) :
    (stepEntry netloc path href bs e).get q =
      bs.get q ++ entryVal q netloc path href e := by
  obtain ⟨host, fld⟩ := e
  by_cases hs : pySubstr host netloc
  · by_cases hp : stripSlashes path = "" <;>
      cases fld <;> cases q <;>
        simp [stepEntry, entryVal, hs, hp, get_append_bucket]
  · cases fld <;> cases q <;> simp [stepEntry, entryVal, hs]

theorem get_foldl_stepEntry (netloc path href : String) :
    ∀ (tbl : List (String × Platform)) (bs : SocialBuckets) (q : Platform),
      (tbl.foldl (stepEntry netloc path href) bs).get q =
        bs.get q ++ catMap (entryVal q netloc path href) tbl := by
  intro tbl
  induction tbl with
  | nil => intro bs q; simp [catMap]
  | cons e t ih =>
    intro bs q
    simp only [List.foldl_cons, catMap, ih, get_stepEntry,
      List.append_assoc]

theorem get_stepAnchor (bs : SocialBuckets) (href : String) (q : Platform) :
    (stepAnchor bs href).get q = bs.get q ++ anchorContrib q href := by
  unfold stepAnchor anchorContrib
  exact get_foldl_stepEntry _ _ _ SOCIAL_HOST_MAP bs q

theorem get_foldl_stepAnchor :
    ∀ (hrefs : List String) (bs : SocialBuckets) (q : Platform),
      (hrefs.foldl stepAnchor bs).get q =
        bs.get q ++ catMap (anchorContrib q) hrefs := by
  intro hrefs
  induction hrefs with
  | nil => intro bs q; simp [catMap]
  | cons h t ih =>
    intro bs q
    simp only [List.foldl_cons, catMap, ih, get_stepAnchor,
      List.append_assoc]

/-- C5 amended: in `extract_social_links`, every entry of
`SOCIAL_HOST_MAP` whose domain substring occurs in an anchor's lower-cased
parsed hostname contributes to that entry's bucket (there is no
first-match cutoff, so one anchor can land in several buckets, or twice in
the same bucket); buckets list the contributions in document order with
table order within one anchor, without deduplication. -/
theorem C5_social_links_every_match_contributes :
    ∀ (hrefs : List String) (q : Platform),
      (extract_social_links hrefs).get q = catMap (anchorContrib q) hrefs := by
  intro hrefs q
  unfold extract_social_links
  rw [get_foldl_stepAnchor]
  cases q <;> rfl

/-- C5 counterexample: the single anchor
`https://facebook.com.x.com/p` has a hostname containing both
`facebook.com` and `x.com`, so the one anchor is classified into two
buckets, contradicting the claimed first-match-wins classification into at
most one bucket. -/
theorem C5_counterexample :
    (extract_social_links ["https://facebook.com.x.com/p"]).facebook_url =
      ["https://facebook.com.x.com/p"] ∧
    (extract_social_links ["https://facebook.com.x.com/p"]).twitter_url =
      ["https://facebook.com.x.com/p"] := by decide



theorem fetchLoop_all_retryable (cfg : WebFetcher) (resp : Nat → HttpResponse)
    (hst : ∀ a, (resp a).status ∈ cfg.retry_statuses) :
    ∀ attempts : List Nat,
      fetchLoop cfg resp attempts =
        ⟨none, attempts.length,
         attempts.map fun a : Nat => cfg.backoff_seconds * (a : ℚ)⟩ := by
  intro attempts
  induction attempts with
  | nil => rfl
  | cons a t ih => simp [fetchLoop, hst a, ih]

/-- C7: when every request answers HTTP 503, `WebFetcher.fetch` issues
exactly `max_retries` attempts, sleeps `backoff_seconds * attempt` after
each of them, returns absence instead of raising, and for the default
`max_retries = 3` the total wait equals (hence is at least)
`backoff_seconds * (1 + 2 + 3)`. -/
theorem C7_fetch_exhausts_retries_on_503 (β : ℚ) (m : Nat)
    (resp : Nat → HttpResponse) (h503 : ∀ a, (resp a).status = 503) :
    (WebFetcher.fetch { backoff_seconds := β, max_retries := m } resp).result
        = none ∧
    (WebFetcher.fetch { backoff_seconds := β, max_retries := m } resp).attempts
        = m ∧
    (WebFetcher.fetch { backoff_seconds := β, max_retries := m } resp).waits
        = (List.range' 1 m).map (fun a : Nat => β * (a : ℚ)) ∧
    (m = 3 →
      (WebFetcher.fetch { backoff_seconds := β, max_retries := m }
          resp).waits.sum = β * (1 + 2 + 3) ∧
      β * (1 + 2 + 3) ≤
        (WebFetcher.fetch { backoff_seconds := β, max_retries := m }
          resp).waits.sum) := by
  have hmem : ∀ a, (resp a).status ∈
      (WebFetcher.mk 20 [429, 503] m β).retry_statuses := by
    intro a; rw [h503 a]; simp
  rw [WebFetcher.fetch, fetchLoop_all_retryable _ resp hmem]
  refine ⟨rfl, by simp, rfl, ?_⟩
  rintro rfl
  have h13 : List.range' 1 3 = [1, 2, 3] := rfl
  rw [h13]
  have hsum : ([1, 2, 3].map (fun a : Nat => β * (a : ℚ))).sum =
      β * (1 + 2 + 3) := by
    simp only [List.map_cons, List.map_nil, List.sum_cons, List.sum_nil]
    push_cast
    ring
  exact ⟨hsum, le_of_eq hsum.symm⟩

/-- Witness for C7 at `backoff_seconds = 3`, `max_retries = 3` and the
constantly-503 response family. -/
theorem C7_witness :
    (WebFetcher.fetch { backoff_seconds := 3, max_retries := 3 }
        (fun _ => ⟨503, ""⟩)).result = none ∧
    (WebFetcher.fetch { backoff_seconds := 3, max_retries := 3 }
        (fun _ => ⟨503, ""⟩)).attempts = 3 ∧
    (WebFetcher.fetch { backoff_seconds := 3, max_retries := 3 }
        (fun _ => ⟨503, ""⟩)).waits.sum = 3 * (1 + 2 + 3) := by
  have h := C7_fetch_exhausts_retries_on_503 3 3 (fun _ => ⟨503, ""⟩)
    (fun a => rfl)
  exact ⟨h.1, h.2.1, (h.2.2.2 rfl).1⟩

/-- C8: a first response with a non-retryable HTTP error status (≥ 400,
outside {429, 503}) makes `fetch` return absence after that single
attempt, with no further request and no backoff wait. -/
theorem C8_fetch_aborts_on_permanent_error (β : ℚ) (m : Nat)
    (resp : Nat → HttpResponse) (s : Nat) (hm : 0 < m)
    (hs : (resp 1).status = s) (h400 : 400 ≤ s) (hns : s ∉ [429, 503]) :
    WebFetcher.fetch { backoff_seconds := β, max_retries := m } resp =
      ⟨none, 1, []⟩ := by
  obtain ⟨m', rfl⟩ : ∃ m', m = m' + 1 := ⟨m - 1, by omega⟩
  rw [WebFetcher.fetch]
  have hrange : List.range' 1 (m' + 1) = 1 :: List.range' 2 m' := by
    rw [List.range'_succ]
  rw [hrange]
  simp only [fetchLoop, hs]
  rw [if_neg (by simpa using hns), if_pos h400]

/-- Witness for C8 at status 404 with the default configuration values. -/
theorem C8_witness :
    WebFetcher.fetch { backoff_seconds := 3, max_retries := 3 }
        (fun _ => ⟨404, "not found"⟩) = ⟨none, 1, []⟩ :=
  C8_fetch_aborts_on_permanent_error 3 3 (fun _ => ⟨404, "not found"⟩) 404
    (by decide) rfl (by decide) (by decide)

/-- C9: on an `OVER_QUERY_LIMIT` status `_get` does not raise and sleeps
exactly `max(2 * request_delay_seconds, 2.0)` — hence at least
`2 * request_delay_seconds` and at least `2.0` — before returning; any
status outside {OK, ZERO_RESULTS, OVER_QUERY_LIMIT} raises immediately. -/
theorem C9_maps_get_status_handling (d : ℚ) (s : String) :
    mapsGet d "OVER_QUERY_LIMIT" = .ok (max (d * 2) 2) ∧
    d * 2 ≤ max (d * 2) 2 ∧
    (2 : ℚ) ≤ max (d * 2) 2 ∧
    (s ∉ ALLOWED_STATUSES → mapsGet d s = .fatal s) := by
  refine ⟨?_, le_max_left _ _, le_max_right _ _, ?_⟩
  · rfl
  · intro h
    simp [mapsGet, h]

/-- Witness for C9 at `request_delay_seconds = 3/2` and the fatal status
`REQUEST_DENIED`. -/
theorem C9_witness :
    mapsGet (3 / 2) "OVER_QUERY_LIMIT" = .ok (max ((3 : ℚ) / 2 * 2) 2) ∧
    mapsGet (3 / 2) "REQUEST_DENIED" = .fatal "REQUEST_DENIED" := by
  have h := C9_maps_get_status_handling (3 / 2) "REQUEST_DENIED"
  exact ⟨h.1, h.2.2.2 (by decide)⟩



theorem fst_dictSet (m : List (String × Option String)) (k : String)
    (v : Option String) :
    (dictSet m k v).map Prod.fst = m.map Prod.fst ∨
    (dictSet m k v).map Prod.fst = m.map Prod.fst ++ [k] := by
  unfold dictSet
  split
  · left
    rw [List.map_map]
    exact List.map_congr_left fun p _ => by by_cases h : p.1 = k <;> simp [h]
  · right; simp

theorem mem_keys_dictSet {m : List (String × Option String)} {k z : String}
    {v : Option String} (h : z ∈ m.map Prod.fst) :
    z ∈ (dictSet m k v).map Prod.fst := by
  rcases fst_dictSet m k v with h2 | h2 <;> rw [h2]
  · exact h
  · exact List.mem_append_left _ h

theorem keys_dictSet_cases {m : List (String × Option String)} {k z : String}
    {v : Option String} (h : z ∈ (dictSet m k v).map Prod.fst) :
    z ∈ m.map Prod.fst ∨ z = k := by
  rcases fst_dictSet m k v with h2 | h2 <;> rw [h2] at h
  · exact Or.inl h
  · rcases List.mem_append.mp h with h | h
    · exact Or.inl h
    · simp at h; exact Or.inr h

theorem keys_nameStep_super {m : List (String × Option String)}
    {tp : String × String} {z : String} (h : z ∈ m.map Prod.fst) :
    z ∈ (nameStep m tp).map Prod.fst := by
  unfold nameStep
  dsimp only
  split
  · split
    · exact mem_keys_dictSet h
    · exact h
  · exact h

theorem keys_nameStep_cases {m : List (String × Option String)}
    {tp : String × String} {z : String}
    (h : z ∈ (nameStep m tp).map Prod.fst) :
    z ∈ m.map Prod.fst ∨
    (nodeMatchesEmail tp.1 = true ∧ z = normalize_email tp.1) := by
  unfold nameStep at h
  dsimp only at h
  split at h
  · next hm =>
    split at h
    · rcases keys_dictSet_cases h with h | h
      · exact Or.inl h
      · exact Or.inr ⟨hm, h⟩
    · exact Or.inl h
  · exact Or.inl h

theorem keys_foldl_nameStep_super :
    ∀ (tps : List (String × String)) (m : List (String × Option String))
      (z : String), z ∈ m.map Prod.fst →
        z ∈ (tps.foldl nameStep m).map Prod.fst := by
  intro tps
  induction tps with
  | nil => intro m z h; exact h
  | cons tp t ih => intro m z h; exact ih _ _ (keys_nameStep_super h)

theorem keys_foldl_nameStep_cases :
    ∀ (tps : List (String × String)) (m : List (String × Option String))
      (z : String), z ∈ (tps.foldl nameStep m).map Prod.fst →
        z ∈ m.map Prod.fst ∨
        ∃ tp ∈ tps, nodeMatchesEmail tp.1 = true ∧
          z = normalize_email tp.1 := by
  intro tps
  induction tps with
  | nil => intro m z h; exact Or.inl h
  | cons tp t ih =>
    intro m z h
    rcases ih _ _ h with h | h
    · rcases keys_nameStep_cases h with h | h
      · exact Or.inl h
      · exact Or.inr ⟨tp, List.mem_cons_self _ _, h⟩
    · rcases h with ⟨tq, ht, hp⟩
      exact Or.inr ⟨tq, List.mem_cons_of_mem _ ht, hp⟩

theorem keys_init_emails (es : List String) :
    (es.map fun e => (e, (none : Option String))).map Prod.fst = es := by
  rw [List.map_map]
  exact (List.map_congr_left fun e _ => rfl).trans (List.map_id _)

/-- C3 amended: in `parse_contact_page` every extracted email has an
`email_to_name` entry, and every key of `email_to_name` is either an
extracted email or the normalization (strip + lower-case) of the full text
of some text node containing an email-like match — the inference loop keys
on the whole text-node string, which can strictly exceed the email. -/
theorem C3_email_to_name_keys (doc : List HNode) :
    (∀ e ∈ (parse_contact_page doc).emails,
        e ∈ (parse_contact_page doc).email_to_name.map Prod.fst) ∧
    (∀ k ∈ (parse_contact_page doc).email_to_name.map Prod.fst,
        k ∈ (parse_contact_page doc).emails ∨
        ∃ tp ∈ textNodesUnder (getTextList doc) doc,
          nodeMatchesEmail tp.1 = true ∧ k = normalize_email tp.1) := by
  constructor
  · intro e he
    show e ∈ ((textNodesUnder (getTextList doc) doc).foldl nameStep
        ((extract_emails (getTextList doc)).map
          fun e => (e, (none : Option String)))).map Prod.fst
    apply keys_foldl_nameStep_super
    rw [keys_init_emails]
    exact he
  · intro k hk
    replace hk : k ∈ ((textNodesUnder (getTextList doc) doc).foldl nameStep
        ((extract_emails (getTextList doc)).map
          fun e => (e, (none : Option String)))).map Prod.fst := hk
    rcases keys_foldl_nameStep_cases _ _ _ hk with h | h
    · rw [keys_init_emails] at h
      exact Or.inl h
    · exact Or.inr h

/-- Witness for C3 on a one-text-node page. -/
theorem C3_witness :
    "w@x.io" ∈ (parse_contact_page docW).email_to_name.map Prod.fst :=
  (C3_email_to_name_keys docW).1 "w@x.io" (by
    simp only [parse_contact_page, docW, getTextList, nodeStringsList,
      anchorsIn]
    decide)

/-- C3 counterexample: on `doc3` the text node
`" jane@a.com is our contact"` matches the email pattern, so the loop
inserts its normalized full text as a key; the key set therefore strictly
exceeds the set of extracted emails. -/
theorem C3_counterexample :
    "jane@a.com is our contact" ∈
      (parse_contact_page doc3).email_to_name.map Prod.fst ∧
    "jane@a.com is our contact" ∉ (parse_contact_page doc3).emails := by
  constructor <;>
  · simp only [parse_contact_page, doc3, getTextList, nodeStringsList,
      anchorsIn, textNodesUnder]
    decide

/-- C10 amended: in fixture mode the records' `source_url` is the entry's
`source_url` when non-empty, otherwise the business's `website_url` when
present AND non-empty, otherwise the literal `"demo"`; `scrape_notes` is
the entry's value when non-empty, otherwise `"demo_fixture"`. -/
theorem C10_fixture_source_url_and_notes (entry : FixtureEntry)
    (b : Business) (doc : List HNode) (t : Nat)
    (hb : entry.business = some b) (hh : entry.html = some doc) :
    ∃ rs, process_fixture_entry entry t = some rs ∧
      rs.map (fun r => r.source_url) = List.replicate rs.length
        (orElseStr entry.source_url (orElseStr b.website_url "demo")) ∧
      rs.map (fun r => r.scrape_notes) = List.replicate rs.length
        (orElseStr entry.scrape_notes "demo_fixture") := by
  simp only [process_fixture_entry, hb, hh]
  refine ⟨_, rfl, ?_, ?_⟩ <;>
  · simp only [expand_email_records, List.map_map, List.length_map]
    exact (List.map_congr_left fun e _ => rfl).trans (List.map_const' _ _)

/-- Witness for C10 at a fixture entry with explicit source and notes. -/
theorem C10_witness :
    ∃ rs, process_fixture_entry entryW 5 = some rs ∧
      rs.map (fun r => r.source_url) = List.replicate rs.length
        (orElseStr entryW.source_url (orElseStr bizW.website_url "demo")) ∧
      rs.map (fun r => r.scrape_notes) = List.replicate rs.length
        (orElseStr entryW.scrape_notes "demo_fixture") :=
  C10_fixture_source_url_and_notes entryW bizW [.text "a@b.co"] 5 rfl rfl

/-- C10 counterexample: with no entry `source_url` and a present-but-empty
business `website_url`, the produced record's `source_url` is `"demo"`,
not the present `website_url` value `""` the claim prescribes. -/
theorem C10_counterexample :
    biz0.website_url = some "" ∧ entry10.source_url = none ∧
    (process_fixture_entry entry10 0).map
        (fun rs => rs.map fun r => r.source_url) = some ["demo"] := by
  refine ⟨rfl, rfl, ?_⟩
  simp only [process_fixture_entry, entry10, biz0, parse_contact_page,
    getTextList, nodeStringsList, anchorsIn, textNodesUnder]
  decide


end Caffeshop
